import Mathlib

/-!
Shallow embedding of the scenario synthesis engine of `mms_msg/scenario.py`:
sparse placement (`pad_sparse`), scale computation (`get_scale`), RIR onset
detection (`get_rir_start_sample`), convolution with early and tail masking
(`get_convolved_signals`, `multi_channel_scenario_map_fn`), white-noise
injection (`get_white_noise_for_signal`, `add_microphone_noise`) and the two
scenario builders.  Signals are modelled as lists over a linear ordered field
(rationals where decidable evaluation matters, reals for the full pipeline).
-/

namespace Scenario

theorem getD_range_map {β : Type} (n : Nat) (f : Nat → β) (d : β) (j : Nat) :
    ((List.range n).map f).getD j d = if j < n then f j else d := by
  by_cases hj : j < n
  · simp [List.getD_eq_getElem?_getD, List.getElem?_map, List.getElem?_range hj, hj]
  · simp only [if_neg hj]
    exact List.getD_eq_default _ _ (by simpa using Nat.le_of_not_lt hj)

section Conv

variable {α : Type} [CommRing α]

/-- Coefficient `n` of the full linear convolution of two sample lists. -/
def convElem (a b : List α) (n : Nat) : α :=
  ∑ k ∈ Finset.range (n + 1), a.getD k 0 * b.getD (n - k) 0

/-- Full linear convolution along the last axis, as computed by
`scipy.signal.fftconvolve(s_[..., None, :], h_, axes=-1)` for one channel:
the output has length `a.length + b.length - 1`. -/
def conv (a b : List α) : List α :=
  (List.range (a.length + b.length - 1)).map (convElem a b)

theorem length_conv (a b : List α) :
    (conv a b).length = a.length + b.length - 1 := by
  simp [conv]

/-- Early part of an impulse response: samples at index `stop` and behind are
zeroed, mirroring `h_early[i, ..., rir_stop_sample[i]:] = 0`. -/
def maskEarly (h : List α) (stop : Nat) : List α :=
  (List.range h.length).map (fun i => if i < stop then h.getD i 0 else 0)

/-- Tail part of an impulse response: samples before index `stop` are zeroed,
mirroring `h_tail[i, ..., :rir_stop_sample[i]] = 0`. -/
def maskTail (h : List α) (stop : Nat) : List α :=
  (List.range h.length).map (fun i => if i < stop then 0 else h.getD i 0)

theorem length_maskEarly (h : List α) (stop : Nat) :
    (maskEarly h stop).length = h.length := by simp [maskEarly]

theorem length_maskTail (h : List α) (stop : Nat) :
    (maskTail h stop).length = h.length := by simp [maskTail]

theorem maskEarly_getD_add_maskTail_getD (h : List α) (stop i : Nat) :
    (maskEarly h stop).getD i 0 + (maskTail h stop).getD i 0 = h.getD i 0 := by
  rw [maskEarly, maskTail, getD_range_map, getD_range_map]
  by_cases hi : i < h.length
  · by_cases hs : i < stop <;> simp [hi, hs]
  · simp only [if_neg hi]
    rw [List.getD_eq_default _ _ (Nat.le_of_not_lt hi)]
    simp

theorem convElem_add_right (a u v w : List α)
    (hpt : ∀ i, u.getD i 0 + v.getD i 0 = w.getD i 0) (n : Nat) :
    convElem a u n + convElem a v n = convElem a w n := by
  unfold convElem
  rw [← Finset.sum_add_distrib]
  refine Finset.sum_congr rfl fun k _ => ?_
  rw [← mul_add, hpt (n - k)]

theorem zipWith_add_mask (h : List α) (stop : Nat) :
    List.zipWith (· + ·) (maskEarly h stop) (maskTail h stop) = h := by
  apply List.ext_getElem
  · simp [length_maskEarly, length_maskTail]
  · intro n h1 h2
    rw [List.getElem_zipWith]
    have hn : n < h.length := h2
    have he : n < (maskEarly h stop).length := by rwa [length_maskEarly]
    have ht : n < (maskTail h stop).length := by rwa [length_maskTail]
    rw [← List.getD_eq_getElem (maskEarly h stop) 0 he,
      ← List.getD_eq_getElem (maskTail h stop) 0 ht,
      maskEarly_getD_add_maskTail_getD, List.getD_eq_getElem _ _ hn]

theorem zipWith_add_conv_mask (s h : List α) (stop : Nat) :
    List.zipWith (· + ·) (conv s (maskEarly h stop)) (conv s (maskTail h stop))
      = conv s h := by
  apply List.ext_getElem
  · simp [conv, length_maskEarly, length_maskTail]
  · intro n h1 h2
    rw [List.getElem_zipWith]
    simp only [conv, length_maskEarly, length_maskTail, List.getElem_map,
      List.getElem_range]
    exact convElem_add_right s _ _ h (maskEarly_getD_add_maskTail_getD h stop) n

end Conv

section Placement

variable {α : Type} [CommRing α]

/-- Modelled from the spec: `SparseArray.from_array_and_onset` (paderbox, not
part of this repository) places the payload `x` at integer sample offset
`onset` inside a zero-background buffer of length `T`; parts of the payload
falling outside `[0, T)` are conceptually dropped. -/
def fromArrayAndOnset (x : List α) (onset : Int) (T : Nat) : List α :=
  (List.range T).map fun (i : Nat) =>
    if onset ≤ (i : Int) ∧ (i : Int) < onset + x.length
    then x.getD ((i : Int) - onset).toNat 0 else 0

/-- Embedding of `pad_sparse` for a 1-D `target_shape = T`. -/
def padSparse (originalSource : List (List α)) (offset : List Int) (T : Nat) :
    List (List α) :=
  List.zipWith (fun x o => fromArrayAndOnset x o T) originalSource offset

/-- Embedding of `pad_sparse` for a 2-D `target_shape = (D, T)`: each signal
is a `(D, T_k)` channel list and the onset applies along the time axis. -/
def padSparse2 (originalSource : List (List (List α))) (offset : List Int)
    (T : Nat) : List (List (List α)) :=
  List.zipWith (fun m o => m.map fun row => fromArrayAndOnset row o T)
    originalSource offset

theorem length_fromArrayAndOnset (x : List α) (onset : Int) (T : Nat) :
    (fromArrayAndOnset x onset T).length = T := by
  rw [fromArrayAndOnset, List.length_map, List.length_range]

/-- Embedding of the inner `get_convolved_signals` of
`multi_channel_scenario_map_fn`: each source `s_k` (1-D) is convolved with
every channel of its RIR `h_k` (shape `(D, rir_length)`). -/
def getConvolvedSignals (s : List (List α)) (h : List (List (List α))) :
    List (List (List α)) :=
  List.zipWith (fun s_ h_ => h_.map fun ch => conv s_ ch) s h

end Placement

section Onset

variable {α : Type} [LinearOrderedField α]

/-- Absolute values of a sample list, `np.abs(h)`. -/
def absList (h : List α) : List α := h.map fun v => |v|

/-- Maximum of a list against a zero floor; on lists of absolute values this
coincides with `np.max` for nonempty input. -/
def listMax (l : List α) : α := l.foldr max 0

/-- Index of the first occurrence of the maximum of `np.abs(h)`, the value of
`np.argmax(abs_h)`. -/
def maxAbsIndex (h : List α) : Nat :=
  (absList h).findIdx fun v => decide (listMax (absList h) ≤ v)

/-- Value of `np.argmax` on a boolean mask: index of the first `True`, or 0
when no entry is set. -/
def npArgmaxBool (mask : List Bool) : Nat :=
  if mask.findIdx (fun b => b) = mask.length then 0
  else mask.findIdx (fun b => b)

/-- Embedding of `get_rir_start_sample` for a 1-D impulse response: the
boolean threshold mask scans up to the peak index inclusive and `np.argmax`
picks its first `True`. -/
def getRirStartSample (h : List α) (levelRatio : α) : Nat :=
  npArgmaxBool ((List.range (maxAbsIndex h + 1)).map fun i =>
    decide (levelRatio * (absList h).getD (maxAbsIndex h) 0
      < (absList h).getD i 0))

/-- Embedding of the multi-channel branch of `get_rir_start_sample`: the
detector runs per channel and the minimum onset across channels is returned. -/
def getRirStartSampleMC (h : List (List α)) (levelRatio : α) : Nat :=
  match h.map (fun row => getRirStartSample row levelRatio) with
  | [] => 0
  | r :: rs => rs.foldr min r

theorem absList_getD (h : List α) (i : Nat) :
    (absList h).getD i 0 = |h.getD i 0| := by
  have := List.getD_map h 0 (fun v : α => |v|) (n := i)
  simpa [absList] using this

theorem le_listMax (l : List α) : ∀ v ∈ l, v ≤ listMax l := by
  induction l with
  | nil => simp
  | cons x xs ih =>
    intro v hv
    rcases List.mem_cons.mp hv with h | h
    · simp [listMax, h, le_max_iff]
    · have := ih v h
      simp only [listMax, List.foldr_cons]
      exact le_max_of_le_right this

theorem listMax_eq_zero_or_mem (l : List α) :
    listMax l = 0 ∨ listMax l ∈ l := by
  induction l with
  | nil => simp [listMax]
  | cons x xs ih =>
    simp only [listMax, List.foldr_cons]
    rcases max_choice x (xs.foldr max 0) with h | h
    · rw [h]; exact Or.inr (List.mem_cons_self x xs)
    · rw [h]
      rcases ih with h0 | hm
      · exact Or.inl h0
      · exact Or.inr (List.mem_cons_of_mem x hm)

theorem npArgmaxBool_spec (mask : List Bool) (hex : ∃ b ∈ mask, b = true) :
    npArgmaxBool mask < mask.length ∧
    mask.getD (npArgmaxBool mask) false = true ∧
    ∀ i, i < npArgmaxBool mask → mask.getD i false = false := by
  have hex' : ∃ b ∈ mask, (fun b => b) b = true := by
    rcases hex with ⟨b, hb, hbt⟩
    exact ⟨b, hb, hbt⟩
  have hj : mask.findIdx (fun b => b) < mask.length :=
    List.findIdx_lt_length_of_exists hex'
  have hres : npArgmaxBool mask = mask.findIdx (fun b => b) := by
    unfold npArgmaxBool
    rw [if_neg (Nat.ne_of_lt hj)]
  refine ⟨by rw [hres]; exact hj, ?_, ?_⟩
  · rw [hres, List.getD_eq_getElem _ _ hj]
    exact List.findIdx_getElem (w := hj)
  · intro i hi
    rw [hres] at hi
    rw [List.getD_eq_getElem _ _ (Nat.lt_trans hi hj)]
    exact List.not_of_lt_findIdx hi

theorem npArgmaxBool_eq_zero (mask : List Bool)
    (hall : ∀ b ∈ mask, b = false) : npArgmaxBool mask = 0 := by
  unfold npArgmaxBool
  rw [if_pos (List.findIdx_eq_length.mpr hall)]

theorem maxAbsIndex_lt_length (h : List α) (hM : 0 < listMax (absList h)) :
    maxAbsIndex h < (absList h).length := by
  have hmem : listMax (absList h) ∈ absList h := by
    rcases listMax_eq_zero_or_mem (absList h) with h0 | hm
    · exact absurd h0 (ne_of_gt hM)
    · exact hm
  exact List.findIdx_lt_length_of_exists ⟨_, hmem, by simp⟩

theorem getD_maxAbsIndex (h : List α) (hM : 0 < listMax (absList h)) :
    (absList h).getD (maxAbsIndex h) 0 = listMax (absList h) := by
  have hlen : maxAbsIndex h < (absList h).length := maxAbsIndex_lt_length h hM
  have hlen' : List.findIdx (fun v => decide (listMax (absList h) ≤ v))
      (absList h) < (absList h).length := hlen
  rw [List.getD_eq_getElem _ _ hlen]
  refine le_antisymm (le_listMax _ _ (List.getElem_mem hlen)) ?_
  have hfi := List.findIdx_getElem (w := hlen')
  exact of_decide_eq_true hfi

theorem getRirStartSample_spec (h : List α) (r : α)
    (hM : 0 < listMax (absList h)) (hr : r < 1) :
    getRirStartSample h r ≤ maxAbsIndex h ∧
    r * listMax (absList h) < |h.getD (getRirStartSample h r) 0| ∧
    ∀ j, j < getRirStartSample h r → ¬ r * listMax (absList h) < |h.getD j 0| := by
  have hval : (absList h).getD (maxAbsIndex h) 0 = listMax (absList h) :=
    getD_maxAbsIndex h hM
  have hres : getRirStartSample h r
      = npArgmaxBool ((List.range (maxAbsIndex h + 1)).map fun i =>
        decide (r * (absList h).getD (maxAbsIndex h) 0
          < (absList h).getD i 0)) := rfl
  have hlen : ((List.range (maxAbsIndex h + 1)).map fun i =>
      decide (r * (absList h).getD (maxAbsIndex h) 0
        < (absList h).getD i 0)).length = maxAbsIndex h + 1 := by
    rw [List.length_map, List.length_range]
  have hget : ∀ i, ((List.range (maxAbsIndex h + 1)).map fun i =>
      decide (r * (absList h).getD (maxAbsIndex h) 0
        < (absList h).getD i 0)).getD i false
      = if i < maxAbsIndex h + 1 then
          decide (r * (absList h).getD (maxAbsIndex h) 0
            < (absList h).getD i 0) else false := fun i =>
    getD_range_map (maxAbsIndex h + 1) _ false i
  have hexmem : ∃ b ∈ ((List.range (maxAbsIndex h + 1)).map fun i =>
      decide (r * (absList h).getD (maxAbsIndex h) 0
        < (absList h).getD i 0)), b = true := by
    refine ⟨_, List.getElem_mem (by rw [hlen]; exact Nat.lt_succ_self _), ?_⟩
    rw [← List.getD_eq_getElem _ false (by rw [hlen]; exact Nat.lt_succ_self _),
      hget (maxAbsIndex h), if_pos (Nat.lt_succ_self _), hval,
      decide_eq_true_iff]
    exact mul_lt_of_lt_one_left hM hr
  obtain ⟨hlt, htrue, hbefore⟩ := npArgmaxBool_spec _ hexmem
  rw [← hres] at hlt htrue hbefore
  rw [hget] at htrue
  rw [hlen] at hlt
  refine ⟨Nat.lt_succ_iff.mp hlt, ?_, ?_⟩
  · rw [if_pos hlt, hval, decide_eq_true_iff] at htrue
    rw [← absList_getD]
    exact htrue
  · intro j hj
    have hjlt : j < maxAbsIndex h + 1 := Nat.lt_trans hj hlt
    have := hbefore j hj
    rw [hget, if_pos hjlt, hval, decide_eq_false_iff_not] at this
    rw [← absList_getD]
    exact this

theorem listMax_replicate_zero (k : Nat) :
    listMax (List.replicate k (0 : α)) = 0 := by
  induction k with
  | zero => rfl
  | succ m ih =>
    rw [List.replicate_succ]
    show max 0 (listMax (List.replicate m (0 : α))) = 0
    rw [ih, max_self]

end Onset

/-- Claim C6: for a 1-D RIR with nonzero peak and `level_ratio < 1`,
`get_rir_start_sample` returns the smallest index at or before the peak
index whose absolute value exceeds `level_ratio` times the peak magnitude;
on `[0, 0, 1, 0.5, 0.1]` with the default `level_ratio = 0.1` it returns 2. -/
theorem C6_rir_onset {α : Type} [LinearOrderedField α] (h : List α) (r : α)
    (hM : 0 < listMax (absList h)) (hr : r < 1) :
    (getRirStartSample h r ≤ maxAbsIndex h ∧
      r * listMax (absList h) < |h.getD (getRirStartSample h r) 0| ∧
      ∀ i, i ≤ maxAbsIndex h → r * listMax (absList h) < |h.getD i 0| →
        getRirStartSample h r ≤ i) ∧
    getRirStartSample ([0, 0, 1, 1/2, 1/10] : List ℚ) (1/10) = 2 := by
  constructor
  · obtain ⟨hle, hth, hmin⟩ := getRirStartSample_spec h r hM hr
    exact ⟨hle, hth, fun i hile hthr =>
      Nat.le_of_not_lt fun hlt => (hmin i hlt) hthr⟩
  · have e2 : (1/2 : ℚ) = mkRat 1 2 := by rw [Rat.mkRat_eq_div]; norm_num
    have e10 : (1/10 : ℚ) = mkRat 1 10 := by rw [Rat.mkRat_eq_div]; norm_num
    rw [e2, e10]
    obtain ⟨hle, hth, hmin⟩ := getRirStartSample_spec
      ([0, 0, 1, mkRat 1 2, mkRat 1 10] : List ℚ) (mkRat 1 10)
      (by decide) (by decide)
    have hmax : maxAbsIndex ([0, 0, 1, mkRat 1 2, mkRat 1 10] : List ℚ) = 2 := by
      decide
    have hM1 : listMax (absList ([0, 0, 1, mkRat 1 2, mkRat 1 10] : List ℚ)) = 1 := by
      decide
    rw [hmax] at hle
    rw [hM1, mul_one] at hth
    rcases show getRirStartSample ([0, 0, 1, mkRat 1 2, mkRat 1 10] : List ℚ)
        (mkRat 1 10) = 0 ∨
        getRirStartSample ([0, 0, 1, mkRat 1 2, mkRat 1 10] : List ℚ)
          (mkRat 1 10) = 1 ∨
        getRirStartSample ([0, 0, 1, mkRat 1 2, mkRat 1 10] : List ℚ)
          (mkRat 1 10) = 2 from by omega with h0 | h1 | h2
    · rw [h0] at hth
      simp only [List.getD_cons_zero, abs_zero] at hth
      exact absurd hth (by decide)
    · rw [h1] at hth
      simp only [List.getD_cons_succ, List.getD_cons_zero, abs_zero] at hth
      exact absurd hth (by decide)
    · exact h2

theorem C6_rir_onset_witness :
    (0 : ℚ) < listMax (absList ([0, 0, 1, 1/2, 1/10] : List ℚ)) ∧
    ((1 : ℚ)/10 < 1) ∧
    getRirStartSample ([0, 0, 1, 1/2, 1/10] : List ℚ) (1/10) = 2 :=
  ⟨by norm_num [absList, listMax], by norm_num,
    (C6_rir_onset ([0, 0, 1, 1/2, 1/10] : List ℚ) (1/10)
      (by norm_num [absList, listMax]) (by norm_num)).2⟩

/-- Claim C10: on a nonempty all-zero impulse response `get_rir_start_sample` is
well defined and returns 0: the peak index of the all-zero array is 0, no
sample exceeds the threshold, and `np.argmax` of the all-false mask is 0. -/
theorem C10_zero_rir {α : Type} [LinearOrderedField α] (n : Nat) (r : α)
    (hn : 0 < n) : getRirStartSample (List.replicate n (0 : α)) r = 0 := by
  obtain ⟨m, rfl⟩ : ∃ m, n = m + 1 := ⟨n - 1, by omega⟩
  have habs : absList (List.replicate (m + 1) (0 : α))
      = List.replicate (m + 1) (0 : α) := by
    simp [absList]
  have hmax : listMax (absList (List.replicate (m + 1) (0 : α))) = 0 := by
    rw [habs, listMax_replicate_zero]
  have hidx : maxAbsIndex (List.replicate (m + 1) (0 : α)) = 0 := by
    unfold maxAbsIndex
    rw [hmax, habs, List.replicate_succ, List.findIdx_cons]
    simp
  unfold getRirStartSample
  rw [hidx, habs, List.replicate_succ]
  have hr1 : List.range 1 = [0] := rfl
  simp [npArgmaxBool, hr1, List.findIdx_cons]

theorem C10_zero_rir_witness :
    0 < 3 ∧ getRirStartSample (List.replicate 3 (0 : ℚ)) (1/10) = 0 :=
  ⟨by decide, C10_zero_rir 3 (1/10) (by decide)⟩

theorem of_mem_zipWith {α β γ : Type} {f : α → β → γ} :
    ∀ {l₁ : List α} {l₂ : List β} {c : γ}, c ∈ List.zipWith f l₁ l₂ →
      ∃ a b, a ∈ l₁ ∧ b ∈ l₂ ∧ c = f a b := by
  intro l₁
  induction l₁ with
  | nil => intro l₂ c hc; simp at hc
  | cons x xs ih =>
    intro l₂ c hc
    cases l₂ with
    | nil => simp at hc
    | cons y ys =>
      rcases List.mem_cons.mp hc with h | h
      · exact ⟨x, y, List.mem_cons_self _ _, List.mem_cons_self _ _, h⟩
      · obtain ⟨a, b, ha, hb, hab⟩ := ih h
        exact ⟨a, b, List.mem_cons_of_mem _ ha, List.mem_cons_of_mem _ hb, hab⟩

theorem getD_zipWith {α β γ : Type} (f : α → β → γ) (l₁ : List α)
    (l₂ : List β) (k : Nat) (d : γ) (h₁ : k < l₁.length) (h₂ : k < l₂.length) :
    (List.zipWith f l₁ l₂).getD k d = f l₁[k] l₂[k] := by
  have hk : k < (List.zipWith f l₁ l₂).length := by
    rw [List.length_zipWith]
    exact lt_min h₁ h₂
  rw [List.getD_eq_getElem _ _ hk, List.getElem_zipWith]

/-- Claim C4: the early and tail RIR masks exactly partition the impulse response
at the boundary sample, and the sum of the convolution with the early-masked
RIR and the convolution with the tail-masked RIR equals the convolution with
the full RIR, exactly in real arithmetic. -/
theorem C4_early_tail_additivity (s h : List ℝ) (stop : Nat) :
    List.zipWith (· + ·) (maskEarly h stop) (maskTail h stop) = h ∧
    List.zipWith (· + ·) (conv s (maskEarly h stop)) (conv s (maskTail h stop))
      = conv s h :=
  ⟨zipWith_add_mask h stop, zipWith_add_conv_mask s h stop⟩

/-- Claim C3: every buffer produced by `pad_sparse` has exactly the requested
target shape — `(T,)` in the 1-D case and `(D, T)` in the multi-channel case
— for arbitrary offsets, so the shape assertions in `pad_sparse` never fire;
and every signal produced by `get_convolved_signals` from a source of length
`T_k` and a `(D, rir_length)` RIR has exactly shape `(D, T_k + rir_length - 1)`,
so its shape assertion never fires either. -/
theorem C3_shapes (xs : List (List ℝ)) (offs : List Int) (T : Nat)
    (ms : List (List (List ℝ))) (moffs : List Int) (D : Nat)
    (s : List (List ℝ)) (h : List (List (List ℝ))) (L : Nat)
    (hx : xs.length = offs.length)
    (hm : ms.length = moffs.length)
    (hD : ∀ mm ∈ ms, mm.length = D)
    (hsh : s.length = h.length)
    (hDL : ∀ hk ∈ h, hk.length = D ∧ ∀ ch ∈ hk, ch.length = L) :
    ((padSparse xs offs T).length = xs.length ∧
      ∀ p ∈ padSparse xs offs T, p.length = T) ∧
    ((padSparse2 ms moffs T).length = ms.length ∧
      ∀ p ∈ padSparse2 ms moffs T, p.length = D ∧
        ∀ row ∈ p, row.length = T) ∧
    ((getConvolvedSignals s h).length = s.length ∧
      ∀ k, k < s.length →
        ((getConvolvedSignals s h).getD k []).length = D ∧
        ∀ row ∈ (getConvolvedSignals s h).getD k [],
          row.length = (s.getD k []).length + L - 1) := by
  refine ⟨⟨?_, ?_⟩, ⟨?_, ?_⟩, ?_, ?_⟩
  · rw [padSparse, List.length_zipWith, hx, min_self]
  · intro p hp
    obtain ⟨a, b, _, _, hab⟩ := of_mem_zipWith hp
    rw [hab, length_fromArrayAndOnset]
  · rw [padSparse2, List.length_zipWith, hm, min_self]
  · intro p hp
    obtain ⟨mm, o, hmm, _, hab⟩ := of_mem_zipWith hp
    subst hab
    refine ⟨by rw [List.length_map]; exact hD mm hmm, ?_⟩
    intro row hrow
    obtain ⟨r0, _, hr0⟩ := List.mem_map.mp hrow
    rw [← hr0, length_fromArrayAndOnset]
  · rw [getConvolvedSignals, List.length_zipWith, hsh, min_self]
  · intro k hk
    have hk2 : k < h.length := hsh ▸ hk
    have hget : (getConvolvedSignals s h).getD k []
        = h[k].map fun ch => conv s[k] ch :=
      getD_zipWith _ s h k [] hk hk2
    obtain ⟨hDk, hLk⟩ := hDL h[k] (List.getElem_mem hk2)
    refine ⟨by rw [hget, List.length_map]; exact hDk, ?_⟩
    intro row hrow
    rw [hget] at hrow
    obtain ⟨ch, hch, hrow'⟩ := List.mem_map.mp hrow
    rw [← hrow', length_conv, hLk ch hch,
      List.getD_eq_getElem _ _ hk]

theorem C3_shapes_witness :
    (([[(1:ℝ)]] : List (List ℝ)).length = ([0] : List Int).length) ∧
    ((padSparse ([[(1:ℝ)]]) [0] 2).length = 1 ∧
      ∀ p ∈ padSparse ([[(1:ℝ)]]) [0] 2, p.length = 2) ∧
    ((padSparse2 ([[[(1:ℝ)]]]) [0] 2).length = 1 ∧
      ∀ p ∈ padSparse2 ([[[(1:ℝ)]]]) [0] 2, p.length = 1 ∧
        ∀ row ∈ p, row.length = 2) ∧
    ((getConvolvedSignals [[(1:ℝ)]] [[[(1:ℝ), 2]]]).length = 1 ∧
      ∀ k, k < 1 →
        ((getConvolvedSignals [[(1:ℝ)]] [[[(1:ℝ), 2]]]).getD k []).length = 1 ∧
        ∀ row ∈ (getConvolvedSignals [[(1:ℝ)]] [[[(1:ℝ), 2]]]).getD k [],
          row.length = (([[(1:ℝ)]] : List (List ℝ)).getD k []).length + 2 - 1) := by
  have happ := C3_shapes [[(1:ℝ)]] [0] 2 [[[(1:ℝ)]]] [0] 1 [[(1:ℝ)]]
    [[[(1:ℝ), 2]]] 2 rfl rfl (by simp) rfl (by simp)
  exact ⟨rfl, happ.1, happ.2.1, happ.2.2⟩

section Noise

/-- Mean of the squares of the samples, `np.mean(x ** 2)`. -/
noncomputable def meanSq (l : List ℝ) : ℝ :=
  (l.map fun v => v ^ 2).sum / l.length

/-- Modelled from the spec: the deterministic string-to-generator mapping
`pb.utils.random_utils.str_to_random_generator` (paderbox, not part of this
repository) is a pure function from the example identifier to a fresh
generator state, modelled as a seed. -/
def strToRandomGenerator (s : String) : Nat :=
  s.foldl (fun a c => a * 31 + c.toNat) 7

/-- Modelled from the spec: the uniform draw `rng.uniform(lo, hi)` of a
freshly constructed generator, a pure function of the seed and the range. -/
noncomputable def uniformDraw (seed : Nat) (lo hi : ℝ) : ℝ :=
  lo + (hi - lo) * ((seed % 1000 : Nat) : ℝ) / 1000

/-- Modelled from the spec: the stream of standard-normal draws
`rng.normal(size=...)` of a freshly constructed generator, a pure function
of the seed and the position in the stream. -/
noncomputable def normalStream (seed : Nat) (i : Nat) : ℝ :=
  ((seed % 97 : Nat) : ℝ) + (i : ℝ) + 1

/-- Standard-normal noise drawn at the shape of a 1-D signal. -/
noncomputable def rawNoise (seed : Nat) (n : Nat) : List ℝ :=
  (List.range n).map (normalStream seed)

/-- Embedding of `get_white_noise_for_signal`: draw shape-matched
standard-normal noise, measure its SNR against the signal, and rescale it by
`10 ** (-(snr - current_snr) / 20)`. -/
noncomputable def getWhiteNoiseForSignal (seed : Nat) (timeSignal : List ℝ)
    (snr : ℝ) : List ℝ :=
  let noiseSignal := rawNoise seed timeSignal.length
  let currentSnr :=
    10 * Real.logb 10 (meanSq timeSignal / meanSq noiseSignal)
  let factor := (10 : ℝ) ^ (-(snr - currentSnr) / 20)
  noiseSignal.map fun v => v * factor

theorem meanSq_map_mul (l : List ℝ) (c : ℝ) :
    meanSq (l.map fun v => v * c) = meanSq l * c ^ 2 := by
  unfold meanSq
  rw [List.map_map, List.length_map]
  have hc : ((fun v => v ^ 2) ∘ fun v : ℝ => v * c) = fun v : ℝ => v ^ 2 * c ^ 2 := by
    funext v
    simp [mul_pow]
  rw [hc, List.sum_map_mul_right]
  ring

theorem logb_snr_key (P N snr : ℝ) (hP : 0 < P) (hN : 0 < N) :
    10 * Real.logb 10
      (P / (N * ((10 : ℝ) ^ (-(snr - 10 * Real.logb 10 (P / N)) / 20)) ^ 2))
      = snr := by
  set cur := 10 * Real.logb 10 (P / N) with hc
  set e := -(snr - cur) / 20 with he
  have hf : ((10 : ℝ) ^ e) ^ 2 = (10 : ℝ) ^ (e * 2) := by
    rw [← Real.rpow_natCast ((10 : ℝ) ^ e) 2,
      ← Real.rpow_mul (by norm_num : (0:ℝ) ≤ 10)]
    norm_num
  rw [hf]
  have hfp : (0:ℝ) < (10 : ℝ) ^ (e * 2) := Real.rpow_pos_of_pos (by norm_num) _
  rw [Real.logb_div (ne_of_gt hP) (ne_of_gt (mul_pos hN hfp)),
    Real.logb_mul (ne_of_gt hN) (ne_of_gt hfp),
    Real.logb_rpow (by norm_num) (by norm_num)]
  have hcur : cur = 10 * (Real.logb 10 P - Real.logb 10 N) := by
    rw [hc, Real.logb_div (ne_of_gt hP) (ne_of_gt hN)]
  rw [he, hcur]
  ring

end Noise

/-- Claim C2: for a mixture with strictly positive power and any target SNR (in
dB), the noise returned by `get_white_noise_for_signal` — shape-matched
standard-normal noise rescaled by `10 ** (-(snr - current_snr) / 20)` —
achieves the target SNR exactly in real arithmetic:
`10 * log10(mixture power / noise power) = snr`. -/
theorem C2_white_noise_snr (seed : Nat) (mix : List ℝ) (snr : ℝ)
    (hmix : 0 < meanSq mix)
    (hnoise : 0 < meanSq (rawNoise seed mix.length)) :
    10 * Real.logb 10
      (meanSq mix / meanSq (getWhiteNoiseForSignal seed mix snr)) = snr := by
  simp only [getWhiteNoiseForSignal]
  rw [meanSq_map_mul]
  exact logb_snr_key (meanSq mix) (meanSq (rawNoise seed mix.length)) snr
    hmix hnoise

theorem C2_white_noise_snr_witness :
    0 < meanSq [(1 : ℝ)] ∧ 0 < meanSq (rawNoise 0 [(1 : ℝ)].length) ∧
    10 * Real.logb 10
      (meanSq [(1 : ℝ)] / meanSq (getWhiteNoiseForSignal 0 [(1 : ℝ)] 5)) = 5 :=
  ⟨by norm_num [meanSq], by norm_num [meanSq, rawNoise, normalStream, List.range_succ, Function.comp],
    C2_white_noise_snr 0 [(1 : ℝ)] 5 (by norm_num [meanSq])
      (by norm_num [meanSq, rawNoise, normalStream, List.range_succ, Function.comp])⟩

section Scale

/-- Mean of the samples, `np.mean`. -/
noncomputable def mean (l : List ℝ) : ℝ := l.sum / l.length

/-- Standard deviation `np.std`: root of the mean squared deviation from the
mean, computed over the entire signal. -/
noncomputable def stdDev (l : List ℝ) : ℝ :=
  Real.sqrt (meanSq (l.map fun v => v - mean l))

/-- Smallest positive normal value of the signals' numeric type,
`np.finfo(dtype).tiny` for IEEE float64. -/
noncomputable def tiny : ℝ := (2 : ℝ) ^ (-(1022 : ℤ))

/-- Embedding of `get_scale`: per source, the standard deviation of the
entire signal floored at `tiny`, then `10 ** (log_weight / 20) / std`, and a
uniform division by the empirical normalization constant 71. -/
noncomputable def getScale (logWeights : List ℝ) (signals : List (List ℝ)) :
    List ℝ :=
  List.zipWith (fun w s => (10 : ℝ) ^ (w / 20) / max (stdDev s) tiny / 71)
    logWeights signals

theorem tiny_pos : (0 : ℝ) < tiny := zpow_pos (by norm_num) _

end Scale

/-- Claim C5: for equal-length `log_weights` and `signals`, entry `k` of
`get_scale` equals `10 ** (log_weight_k / 20) / max(std(signal_k), tiny) / 71`
— standard deviation of the entire signal, floored at the smallest positive
representable value, with the fixed empirical divisor 71 — and every scale
factor is strictly positive. -/
theorem C5_get_scale (lw : List ℝ) (s : List (List ℝ)) (k : Nat)
    (hlen : lw.length = s.length) (hk : k < lw.length) :
    (getScale lw s).getD k 0
      = (10 : ℝ) ^ (lw.getD k 0 / 20) / max (stdDev (s.getD k [])) tiny / 71 ∧
    0 < (getScale lw s).getD k 0 := by
  have hk2 : k < s.length := hlen ▸ hk
  have hget : (getScale lw s).getD k 0
      = (10 : ℝ) ^ (lw[k] / 20) / max (stdDev s[k]) tiny / 71 :=
    getD_zipWith _ lw s k 0 hk hk2
  constructor
  · rw [hget, List.getD_eq_getElem _ _ hk, List.getD_eq_getElem _ _ hk2]
  · rw [hget]
    have h1 : (0:ℝ) < (10 : ℝ) ^ (lw[k] / 20) :=
      Real.rpow_pos_of_pos (by norm_num) _
    have h2 : (0:ℝ) < max (stdDev s[k]) tiny :=
      lt_of_lt_of_le tiny_pos (le_max_right _ _)
    exact div_pos (div_pos h1 h2) (by norm_num)

theorem C5_get_scale_witness :
    (([(0:ℝ)] : List ℝ).length = ([[(1:ℝ)]] : List (List ℝ)).length) ∧
    (0 < ([(0:ℝ)] : List ℝ).length) ∧
    ((getScale [(0:ℝ)] [[(1:ℝ)]]).getD 0 0
      = (10 : ℝ) ^ ((([(0:ℝ)] : List ℝ).getD 0 0) / 20)
        / max (stdDev (([[(1:ℝ)]] : List (List ℝ)).getD 0 [])) tiny / 71 ∧
     0 < (getScale [(0:ℝ)] [[(1:ℝ)]]).getD 0 0) :=
  ⟨rfl, by simp, C5_get_scale [(0:ℝ)] [[(1:ℝ)]] 0 rfl (by simp)⟩

section Builders

/-- Example record of the anechoic pipeline: input metadata plus the
audio-data entries the builder populates.  Optional fields mirror dict keys
that exist only once written. -/
structure Ex1 where
  exampleId : String
  originalSource : List (List ℝ)
  offset : List Int
  logWeights : List ℝ
  numSamples : Nat
  observation : List ℝ
  speechSource : Option (List (List ℝ))
  speechImage : Option (List (List ℝ))
  noiseImage : Option (List ℝ)
  snr : Option ℝ

/-- Embedding of `add_microphone_noise` for a 1-D observation.  The
`globalSeed` argument models the ambient process-global `np.random` state,
which the function never consults: both the SNR draw and the noise draw use
generators freshly constructed from the example identifier. -/
noncomputable def addMicrophoneNoise (globalSeed : Nat)
    (snrRange : Option (ℝ × ℝ)) (ex : Ex1) : Ex1 :=
  match snrRange with
  | none => ex
  | some (lo, hi) =>
    let seed := strToRandomGenerator ex.exampleId
    let snr := uniformDraw seed lo hi
    let seed2 := strToRandomGenerator ex.exampleId
    let n := getWhiteNoiseForSignal seed2 ex.observation snr
    { ex with
      snr := some snr
      noiseImage := some n
      observation := List.zipWith (· + ·) ex.observation n }

/-- Sum of equal-length buffers starting from `np.zeros(T)`, the Python
`sum(speech_source, np.zeros(T, ...))`. -/
def sumBuffers (T : Nat) (l : List (List ℝ)) : List ℝ :=
  l.foldl (fun acc x => List.zipWith (· + ·) acc x) (List.replicate T 0)

/-- Embedding of `anechoic_scenario_map_fn`: optional mean normalization,
scaling by `get_scale`, sparse placement, summation into the mixture, and
deterministic noise injection. -/
noncomputable def anechoicScenarioMapFn (globalSeed : Nat)
    (snrRange : Option (ℝ × ℝ)) (normalizeSources : Bool) (ex : Ex1) : Ex1 :=
  let T := ex.numSamples
  let s0 := ex.originalSource
  let s1 := if normalizeSources then
      s0.map (fun x => x.map fun v => v - mean x) else s0
  let scale := getScale ex.logWeights s1
  let s2 := List.zipWith (fun x c => x.map fun v => v * c) s1 scale
  let speechSource := padSparse s2 ex.offset T
  let mix := sumBuffers T speechSource
  addMicrophoneNoise globalSeed snrRange
    { ex with
      observation := mix
      speechSource := some speechSource
      speechImage := some speechSource }

/-- Example record of the multi-channel pipeline.  Optional fields mirror
dict keys that exist only once written; `rir` has shape `(K, D, L)`. -/
structure ExM where
  exampleId : String
  originalSource : List (List ℝ)
  offset : List Int
  logWeights : List ℝ
  speakerId : List String
  numSamples : Nat
  numSamplesOriginalSource : List Nat
  rir : List (List (List ℝ))
  observation : List (List ℝ)
  speechSource : Option (List (List ℝ))
  originalReverberated : Option (List (List (List ℝ)))
  speechImage : Option (List (List (List ℝ)))
  numSamplesOriginalReverberated : Option (List Nat)
  offsetOriginalReverberated : Option (List Int)
  originalReverberationEarly : Option (List (List (List ℝ)))
  speechReverberationEarly : Option (List (List (List ℝ)))
  originalReverberationTail : Option (List (List (List ℝ)))
  speechReverberationTail : Option (List (List (List ℝ)))
  rirEarly : Option (List (List (List ℝ)))
  rirTail : Option (List (List (List ℝ)))
  noiseImage : Option (List (List ℝ))
  snr : Option ℝ

/-- Standard-normal noise drawn at a `(D, T)` shape, row major. -/
noncomputable def rawNoise2 (seed : Nat) (D T : Nat) : List (List ℝ) :=
  (List.range D).map fun d => (List.range T).map fun t =>
    normalStream seed (d * T + t)

/-- Mean of the squares over all entries of a `(D, T)` buffer. -/
noncomputable def meanSq2 (m : List (List ℝ)) : ℝ := meanSq m.flatten

/-- Embedding of `get_white_noise_for_signal` for a `(D, T)` observation. -/
noncomputable def getWhiteNoiseForSignal2 (seed : Nat)
    (timeSignal : List (List ℝ)) (snr : ℝ) : List (List ℝ) :=
  let noiseSignal :=
    rawNoise2 seed timeSignal.length (timeSignal.headD []).length
  let currentSnr :=
    10 * Real.logb 10 (meanSq2 timeSignal / meanSq2 noiseSignal)
  let factor := (10 : ℝ) ^ (-(snr - currentSnr) / 20)
  noiseSignal.map fun row => row.map fun v => v * factor

/-- Embedding of `add_microphone_noise` for a `(D, T)` observation. -/
noncomputable def addMicrophoneNoiseM (globalSeed : Nat)
    (snrRange : Option (ℝ × ℝ)) (ex : ExM) : ExM :=
  match snrRange with
  | none => ex
  | some (lo, hi) =>
    let seed := strToRandomGenerator ex.exampleId
    let snr := uniformDraw seed lo hi
    let seed2 := strToRandomGenerator ex.exampleId
    let n := getWhiteNoiseForSignal2 seed2 ex.observation snr
    { ex with
      snr := some snr
      noiseImage := some n
      observation := List.zipWith (List.zipWith (· + ·)) ex.observation n }

/-- Embedding of `get_scale` applied to `(D, T)`-shaped signals (the
reverberated signals): `np.std` flattens over all axes. -/
noncomputable def getScale2 (logWeights : List ℝ)
    (signals : List (List (List ℝ))) : List ℝ :=
  List.zipWith (fun w m => (10 : ℝ) ^ (w / 20) / max (stdDev m.flatten) tiny / 71)
    logWeights signals

/-- Sum of equal-shape `(D, T)` buffers starting from `np.zeros((D, T))`. -/
def sumBuffers2 (D T : Nat) (l : List (List (List ℝ))) : List (List ℝ) :=
  l.foldl (fun acc x => List.zipWith (List.zipWith (· + ·)) acc x)
    (List.replicate D (List.replicate T 0))

/-- Embedding of `multi_channel_scenario_map_fn` (with the default
`channel_slice=None`): RIR onset estimation, offset re-alignment,
convolution, scaling, sparse placement, optional early/tail decompositions,
mixture summation and noise injection. -/
noncomputable def multiChannelScenarioMapFn (globalSeed : Nat)
    (snrRange : Option (ℝ × ℝ)) (normalizeSources : Bool)
    (addSpeechReverberationEarly addSpeechReverberationTail : Bool)
    (earlyRirSamples : Nat) (details : Bool) (ex : ExM) : ExM :=
  let h := ex.rir
  let rirStartSample := h.map fun hk => getRirStartSampleMC hk (1/10)
  let D := (h.headD []).length
  let T := ex.numSamples
  let rirStopSample := rirStartSample.map fun v => v + earlyRirSamples
  let rirOffset :=
    List.zipWith (fun o r => o - (r : Int)) ex.offset rirStartSample
  let s := if normalizeSources then
      ex.originalSource.map (fun x => x.map fun v => v - mean x)
    else ex.originalSource
  let speechSource := padSparse ex.originalSource ex.offset T
  let originalReverberated0 := getConvolvedSignals s h
  let scale := getScale2 ex.logWeights originalReverberated0
  let applyScale := fun x : List (List (List ℝ)) =>
    List.zipWith (fun m c => m.map fun row => row.map fun v => v * c) x scale
  let originalReverberated := applyScale originalReverberated0
  let speechImage := padSparse2 originalReverberated rirOffset T
  let numSamplesRev := originalReverberated.map fun a => (a.headD []).length
  let hEarly :=
    List.zipWith (fun hk stop => hk.map fun ch => maskEarly ch stop)
      h rirStopSample
  let hTail :=
    List.zipWith (fun hk stop => hk.map fun ch => maskTail ch stop)
      h rirStopSample
  let origRevEarly := applyScale (getConvolvedSignals s hEarly)
  let speechRevEarly := padSparse2 origRevEarly rirOffset T
  let origRevTail := applyScale (getConvolvedSignals s hTail)
  let speechRevTail := padSparse2 origRevTail rirOffset T
  let cleanMix := sumBuffers2 D T speechImage
  addMicrophoneNoiseM globalSeed snrRange
    { ex with
      speechSource := some speechSource
      originalReverberated := some originalReverberated
      speechImage := some speechImage
      numSamplesOriginalReverberated := some numSamplesRev
      offsetOriginalReverberated := some rirOffset
      originalReverberationEarly :=
        if addSpeechReverberationEarly then some origRevEarly else none
      speechReverberationEarly :=
        if addSpeechReverberationEarly then some speechRevEarly else none
      rirEarly :=
        if addSpeechReverberationEarly && details then some hEarly else none
      originalReverberationTail :=
        if addSpeechReverberationTail then some origRevTail else none
      speechReverberationTail :=
        if addSpeechReverberationTail then some speechRevTail else none
      rirTail :=
        if addSpeechReverberationTail && details then some hTail else none
      observation := cleanMix }

end Builders

/-- Claim C1: `add_microphone_noise` is deterministic: the SNR draw, the noise
image and the noised observation depend only on the example identifier, the
observation buffer and the SNR range — the RNG state is a pure function of
the example id, freshly constructed for both draws, with no dependence on
the ambient process-global random state or on any other example field. -/
theorem C1_noise_determinism (g1 g2 : Nat) (r : ℝ × ℝ) (e1 e2 : Ex1)
    (hid : e1.exampleId = e2.exampleId)
    (hobs : e1.observation = e2.observation) :
    (addMicrophoneNoise g1 (some r) e1).snr
      = (addMicrophoneNoise g2 (some r) e2).snr ∧
    (addMicrophoneNoise g1 (some r) e1).noiseImage
      = (addMicrophoneNoise g2 (some r) e2).noiseImage ∧
    (addMicrophoneNoise g1 (some r) e1).observation
      = (addMicrophoneNoise g2 (some r) e2).observation := by
  obtain ⟨lo, hi⟩ := r
  refine ⟨?_, ?_, ?_⟩ <;> simp [addMicrophoneNoise, hid, hobs]

/-- Concrete anechoic example record used by the witnesses. -/
noncomputable def exW : Ex1 :=
  { exampleId := "x", originalSource := [[1]], offset := [0],
    logWeights := [0], numSamples := 1, observation := [1],
    speechSource := none, speechImage := none, noiseImage := none,
    snr := none }

theorem C1_noise_determinism_witness :
    exW.exampleId = exW.exampleId ∧ exW.observation = exW.observation ∧
    ((addMicrophoneNoise 11 (some (20, 30)) exW).snr
        = (addMicrophoneNoise 22 (some (20, 30)) exW).snr ∧
      (addMicrophoneNoise 11 (some (20, 30)) exW).noiseImage
        = (addMicrophoneNoise 22 (some (20, 30)) exW).noiseImage ∧
      (addMicrophoneNoise 11 (some (20, 30)) exW).observation
        = (addMicrophoneNoise 22 (some (20, 30)) exW).observation) :=
  ⟨rfl, rfl, C1_noise_determinism 11 22 (20, 30) exW exW rfl rfl⟩

/-- Claim C8: with `snr_range = None`, `add_microphone_noise` leaves the example
record completely unchanged, and the anechoic builder's observation is the
unmodified sum of the placed speech images with no noise_image or snr field
populated. -/
theorem C8_noise_free (g : Nat) (norm : Bool) (ex : Ex1)
    (hn : ex.noiseImage = none) (hs : ex.snr = none) :
    addMicrophoneNoise g none ex = ex ∧
    (anechoicScenarioMapFn g none norm ex).observation
      = sumBuffers ex.numSamples
        ((anechoicScenarioMapFn g none norm ex).speechImage.getD []) ∧
    (anechoicScenarioMapFn g none norm ex).noiseImage = none ∧
    (anechoicScenarioMapFn g none norm ex).snr = none := by
  refine ⟨rfl, ?_, ?_, ?_⟩ <;>
    simp [anechoicScenarioMapFn, addMicrophoneNoise, hn, hs]

theorem C8_noise_free_witness :
    exW.noiseImage = none ∧ exW.snr = none ∧
    (addMicrophoneNoise 7 none exW = exW ∧
      (anechoicScenarioMapFn 7 none true exW).observation
        = sumBuffers exW.numSamples
          ((anechoicScenarioMapFn 7 none true exW).speechImage.getD []) ∧
      (anechoicScenarioMapFn 7 none true exW).noiseImage = none ∧
      (anechoicScenarioMapFn 7 none true exW).snr = none) :=
  ⟨rfl, rfl, C8_noise_free 7 true exW rfl rfl⟩

/-- Claim C9: with a non-None snr_range, the final observation of either scenario
builder equals, elementwise and exactly, the sum of the placed speech images
plus the stored noise image. -/
theorem C9_observation_sum (g : Nat) (lo hi : ℝ) (norm : Bool) (ex1 : Ex1)
    (e t : Bool) (early : Nat) (details : Bool) (exm : ExM) :
    (∃ ss n,
      (anechoicScenarioMapFn g (some (lo, hi)) norm ex1).speechImage
        = some ss ∧
      (anechoicScenarioMapFn g (some (lo, hi)) norm ex1).noiseImage
        = some n ∧
      (anechoicScenarioMapFn g (some (lo, hi)) norm ex1).observation
        = List.zipWith (· + ·) (sumBuffers ex1.numSamples ss) n) ∧
    (∃ ss n,
      (multiChannelScenarioMapFn g (some (lo, hi)) norm e t early details
        exm).speechImage = some ss ∧
      (multiChannelScenarioMapFn g (some (lo, hi)) norm e t early details
        exm).noiseImage = some n ∧
      (multiChannelScenarioMapFn g (some (lo, hi)) norm e t early details
        exm).observation
        = List.zipWith (List.zipWith (· + ·))
            (sumBuffers2 (exm.rir.headD []).length exm.numSamples ss) n) := by
  constructor
  · exact ⟨_, _, rfl, rfl, rfl⟩
  · exact ⟨_, _, rfl, rfl, rfl⟩

/-- Claim C7: toggling `add_speech_reverberation_early` or
`add_speech_reverberation_tail` changes only the presence of that stage's
own output fields; the observation, speech source, reverberated signals,
speech images, bookkeeping fields, noise and SNR, and the other stage's
outputs are identical to the fully enabled run. -/
theorem C7_stage_independence (g : Nat) (r : Option (ℝ × ℝ)) (norm : Bool)
    (e t : Bool) (early : Nat) (details : Bool) (ex : ExM) :
    let full := multiChannelScenarioMapFn g r norm true true early details ex
    let o := multiChannelScenarioMapFn g r norm e t early details ex
    o.observation = full.observation ∧
    o.speechSource = full.speechSource ∧
    o.originalReverberated = full.originalReverberated ∧
    o.speechImage = full.speechImage ∧
    o.numSamplesOriginalReverberated = full.numSamplesOriginalReverberated ∧
    o.offsetOriginalReverberated = full.offsetOriginalReverberated ∧
    o.noiseImage = full.noiseImage ∧
    o.snr = full.snr ∧
    o.originalReverberationEarly
      = (if e then full.originalReverberationEarly else none) ∧
    o.speechReverberationEarly
      = (if e then full.speechReverberationEarly else none) ∧
    o.rirEarly = (if e then full.rirEarly else none) ∧
    o.originalReverberationTail
      = (if t then full.originalReverberationTail else none) ∧
    o.speechReverberationTail
      = (if t then full.speechReverberationTail else none) ∧
    o.rirTail = (if t then full.rirTail else none) := by
  cases e <;> cases t <;> rcases r with _ | ⟨lo, hi⟩ <;>
    simp [multiChannelScenarioMapFn, addMicrophoneNoiseM]

end Scenario
